import Mathlib

set_option maxRecDepth 8192

/-
Verification of the AI anomaly-detection / RCA engine (ai-engine/main.py).

The per-metric streaming scorer is delegated by the source to an external
library (river HalfSpaceTrees); it is modelled here from the specification
(spec §4.2).  Everything else is translated directly from the source:
the log correlation buffer (a deque with maxlen), the RCA correlator
(perform_rca), the recommendation generator (generate_recommendation),
and the per-message processing step (process_message).  Floats are
embedded as rationals; the wall clock is an abstract parameter; the
Kafka producer is modelled as a function that either delivers a
recommendation or raises (returns an error string), matching the
fire-and-forget send + flush call in the source.
-/

/-- Modelled from the spec: hyperparameters of the Half-Space Trees streaming
scorer (spec §4.2, §6).  The source registry constructs every model with the
fixed values recorded in `codeParams`. -/
structure HSTParams where
  nTrees : Nat
  height : Nat
  windowSize : Nat
  seed : Nat
deriving DecidableEq

/-- Hyperparameters hard-coded at the model registry in the source:
n_trees=10, height=8, window_size=200, seed=42. -/
def codeParams : HSTParams := ⟨10, 8, 200, 42⟩

/-- Modelled from the spec: a half-space tree node; every node carries a
reference-window count `r` and a current-window count `c`, internal nodes
carry a split point. -/
inductive HSTree where
  | leaf (r c : Nat)
  | node (r c : Nat) (split : ℚ) (left right : HSTree)
deriving DecidableEq

/-- Modelled from the spec: the deterministic seeded generator from which
split points are drawn once at construction (spec §4.2). -/
def lcgNext (s : Nat) : Nat := (s * 1103515245 + 12345) % 2147483648

/-- Modelled from the spec: build one randomized binary tree of the given
depth over a value range, drawing each internal split from the seeded
generator; all counts start at zero. -/
def buildTree (rng : Nat) (lo hi : ℚ) : Nat → HSTree × Nat
  | 0 => (HSTree.leaf 0 0, rng)
  | d + 1 =>
    let rng1 := lcgNext rng
    let split := lo + (hi - lo) * ((rng1 % 1024 : Nat) : ℚ) / 1024
    let lp := buildTree rng1 lo split d
    let rp := buildTree lp.2 split hi d
    (HSTree.node 0 0 split lp.1 rp.1, rp.2)

/-- Modelled from the spec: build the ensemble of `n` trees, threading the
generator state. -/
def buildTrees (rng : Nat) (lo hi : ℚ) (d : Nat) : Nat → List HSTree × Nat
  | 0 => ([], rng)
  | n + 1 =>
    let tp := buildTree rng lo hi d
    let rest := buildTrees tp.2 lo hi d n
    (tp.1 :: rest.1, rest.2)

/-- Modelled from the spec: state of one streaming anomaly model: the tree
ensemble, the number of samples learned since the last window rotation
(`phase`), and the number of rotations performed so far. -/
structure HST where
  params : HSTParams
  trees : List HSTree
  phase : Nat
  rotations : Nat
deriving DecidableEq

/-- Modelled from the spec: construct a model; split points are drawn once at
construction from the seeded generator over a synthetic working range. -/
def hstInit (p : HSTParams) : HST :=
  { params := p, trees := (buildTrees p.seed 0 1 p.height p.nTrees).1,
    phase := 0, rotations := 0 }

/-- Modelled from the spec: accumulated reference mass along the root-to-leaf
path followed by a value: at each visited node the term
reference_count / 2 ^ depth, with depth 0 at the root. -/
def pathMass (v : ℚ) : HSTree → Nat → ℚ
  | HSTree.leaf r _, d => (r : ℚ) / 2 ^ d
  | HSTree.node r _ split l rt, d =>
    (r : ℚ) / 2 ^ d + (if v < split then pathMass v l (d + 1) else pathMass v rt (d + 1))

/-- Modelled from the spec: learning increments the current-window count of
every node on the followed path by one; reference counts are untouched. -/
def learnTree (v : ℚ) : HSTree → HSTree
  | HSTree.leaf r c => HSTree.leaf r (c + 1)
  | HSTree.node r c split l rt =>
    if v < split then HSTree.node r (c + 1) split (learnTree v l) rt
    else HSTree.node r (c + 1) split l (learnTree v rt)

/-- Modelled from the spec: window rotation copies every current-window count
into the reference-window count and resets the current count to zero. -/
def rotateTree : HSTree → HSTree
  | HSTree.leaf _ c => HSTree.leaf c 0
  | HSTree.node _ c split l rt => HSTree.node c 0 split (rotateTree l) (rotateTree rt)

/-- Sum of 1 / 2 ^ d for d = 0 .. h, written recursively. -/
def invPowSum : Nat → ℚ
  | 0 => 1
  | h + 1 => 1 + invPowSum h / 2

/-- Modelled from the spec: the maximum possible accumulated mass, used as the
normalizer mapping scores into the unit interval. -/
def maxMassQ (p : HSTParams) : ℚ :=
  (p.nTrees : ℚ) * (p.windowSize : ℚ) * invPowSum p.height

/-- Modelled from the spec: scoring does not mutate state; before the first
window rotation the score is defined to be 0; afterwards the accumulated
reference mass over all trees is normalized by the maximum possible mass and
inverted, so low mass (isolation) means a high anomaly score. -/
def scoreOne (m : HST) (v : ℚ) : ℚ :=
  if m.rotations = 0 then 0
  else 1 - ((m.trees.map (fun t => pathMass v t 0)).sum) / maxMassQ m.params

/-- Modelled from the spec: learn one sample; every window_size learned
samples the whole ensemble rotates its windows at once. -/
def learnOne (m : HST) (v : ℚ) : HST :=
  if m.phase + 1 ≥ m.params.windowSize then
    { m with
      trees := (m.trees.map (learnTree v)).map rotateTree
      phase := 0
      rotations := m.rotations + 1 }
  else
    { m with trees := m.trees.map (learnTree v), phase := m.phase + 1 }

/-- Learn a whole sequence of samples. -/
def learnSeq (m : HST) : List ℚ → HST
  | [] => m
  | v :: vs => learnSeq (learnOne m v) vs

/-- Score-then-learn over a sequence, returning the sequence of scores, in the
order the source applies the two operations per sample. -/
def scoreSeq (m : HST) : List ℚ → List ℚ
  | [] => []
  | v :: vs => scoreOne m v :: scoreSeq (learnOne m v) vs

/-- A log record as extracted by parse_otlp_logs: timestamp, severity,
message. -/
structure LogRecord where
  timestamp : Int
  severity : String
  message : String
deriving DecidableEq

/-- LOG_BUFFER_SIZE from the source. -/
def LOG_BUFFER_SIZE : Nat := 1000

/-- Appending to a deque constructed with maxlen: once full, the oldest
record is discarded before the new one is kept. -/
def dequeAppend (maxlen : Nat) (buf : List LogRecord) (x : LogRecord) : List LogRecord :=
  let b := buf ++ [x]
  b.drop (b.length - maxlen)

/-- Whether `sub` occurs at the head of the second list. -/
def startsWithChars : List Char → List Char → Bool
  | [], _ => true
  | _ :: _, [] => false
  | a :: as, b :: bs => a == b && startsWithChars as bs

/-- Whether `sub` occurs contiguously anywhere in the list: the Python
substring containment test on strings. -/
def hasSubstrChars (sub : List Char) : List Char → Bool
  | [] => startsWithChars sub []
  | b :: bs => startsWithChars sub (b :: bs) || hasSubstrChars sub bs

/-- Python `sub in s` on strings. -/
def hasSubstr (sub s : String) : Bool := hasSubstrChars sub.data s.data

/-- Python `s.lower()`. -/
def lowerStr (s : String) : String := String.mk (s.data.map Char.toLower)

/-- The filter of perform_rca: severity is ERROR or FATAL, or the message
contains the case-insensitive substring "error". -/
def isErrorLog (l : LogRecord) : Bool :=
  l.severity == "ERROR" || l.severity == "FATAL" || hasSubstr "error" (lowerStr l.message)

/-- The display loop of perform_rca: walk the filtered records, skip messages
already shown, emit new ones, and stop once 5 unique messages were emitted. -/
def collectUnique : List LogRecord → List String → Nat → List LogRecord
  | [], _, _ => []
  | l :: rest, shown, count =>
    if shown.contains l.message then collectUnique rest shown count
    else if count + 1 ≥ 5 then [l]
    else l :: collectUnique rest (l.message :: shown) (count + 1)

/-- The list of log records perform_rca displays for a given buffer state:
filter the buffer, then walk it newest-first, deduplicating by message and
stopping at 5 unique messages. -/
def performRcaShown (buf : List LogRecord) : List LogRecord :=
  collectUnique ((buf.filter isErrorLog).reverse) [] 0

/-- Deduplication by exact message text, first occurrence in order wins;
stated the way the spec words the RCA scan. -/
def dedupMessages (seen : List String) : List LogRecord → List LogRecord
  | [] => []
  | l :: rest =>
    if seen.contains l.message then dedupMessages seen rest
    else l :: dedupMessages (l.message :: seen) rest

/-- The RCA scan exactly as the spec words it: scan the buffer most-recent
first, select error-relevant records, deduplicate by exact message text with
the first occurrence in scan order winning, and stop after 5 unique
messages. -/
def rcaSpecScan (buf : List LogRecord) : List LogRecord :=
  (dedupMessages [] ((buf.reverse).filter isErrorLog)).take 5

/-- The recommendation record built by generate_recommendation. -/
structure Recommendation where
  id : Nat
  title : String
  description : String
  details : String
  impact : String
  category : String
  confidence : ℚ
  estimated_improvement : String
  current_config : String
  suggested_config : String
  server : String
  timestamp : Nat
deriving DecidableEq

/-- generate_recommendation from the source.  `valueStr` is the decimal
rendering the Python f-string interpolates for the triggering float value;
`rec_id` and `ts` abstract the two wall-clock reads int(time.time()*1000)
and int(time.time()). -/
def generate_recommendation (metric_name : String) (valueStr : String)
    (rec_id ts : Nat) : Option Recommendation :=
  if hasSubstr "request_time" metric_name || hasSubstr "latency" metric_name then
    some
      { id := rec_id,
        title := "Enable Micro-Caching",
        description := "High latency detected (" ++ valueStr ++
          "ms). Enable micro-caching to reduce upstream load.",
        details := "Latency spike of " ++ valueStr ++
          "ms observed. Micro-caching for 1s can significantly reduce backend pressure without affecting freshness.",
        impact := "high",
        category := "Performance",
        confidence := 89 / 100,
        estimated_improvement := "-40% latency",
        current_config := "proxy_cache off;",
        suggested_config := "proxy_cache_valid 200 1s;",
        server := "nginx-prod-01",
        timestamp := ts }
  else if hasSubstr "cpu" metric_name then
    some
      { id := rec_id,
        title := "Optimize Worker Connections",
        description := "High CPU usage detected. Tune worker_connections to handle concurrency better.",
        details := "CPU saturation indicates thread contention. Increasing worker_connections provided we have enough file descriptors.",
        impact := "medium",
        category := "Performance",
        confidence := 75 / 100,
        estimated_improvement := "+20% throughput",
        current_config := "worker_connections 1024;",
        suggested_config := "worker_connections 4096;",
        server := "nginx-prod-01",
        timestamp := ts }
  else none

/-- The alert tiers of the spec; realized in the source as the
if / elif / else branch structure of process_message. -/
inductive Tier where
  | NORMAL
  | WARNING
  | ALERT
deriving DecidableEq

/-- The branch structure of process_message on a score: strictly above 0.8 is
ALERT, else strictly above 0.5 is WARNING, else NORMAL. -/
def alertTier (score : ℚ) : Tier :=
  if score > 8 / 10 then Tier.ALERT
  else if score > 5 / 10 then Tier.WARNING
  else Tier.NORMAL

/-- A consumed Kafka message, with its payload abstracted by what the two
upstream parsers (excluded adapters per spec §1) extract from its bytes. -/
structure KMessage where
  topic : String
  metricsPayload : List (String × ℚ)
  logsPayload : List LogRecord

/-- The module-level mutable state of the engine: the model registry
(insertion-ordered association list, as the defaultdict), the log buffer,
and observable effects: perform_rca invocations with the error logs they
display, recommendations handed successfully to the producer, warning
printouts.  `now` abstracts the wall clock. -/
structure EngineState where
  detectors : List (String × HST)
  logBuffer : List LogRecord
  rcaRuns : List (String × ℚ × List LogRecord)
  sent : List Recommendation
  warns : List (String × ℚ)
  now : Nat

/-- Lookup in the registry. -/
def lookupModel : List (String × HST) → String → Option HST
  | [], _ => none
  | (k, m) :: rest, name => if k == name then some m else lookupModel rest name

/-- Replace the entry for a name in the registry. -/
def updateAssoc : List (String × HST) → String → HST → List (String × HST)
  | [], _, _ => []
  | (k, m) :: rest, name, m2 =>
    if k == name then (k, m2) :: rest else (k, m) :: updateAssoc rest name m2

/-- detectors[metric_name] on the defaultdict: return the existing model, or
construct one with the hard-coded hyperparameters and insert it. -/
def getOrCreate (d : List (String × HST)) (name : String) : HST × List (String × HST) :=
  match lookupModel d name with
  | some m => (m, d)
  | none => (hstInit codeParams, d ++ [(name, hstInit codeParams)])

/-- Outcome of producer.send + producer.flush for one recommendation:
`none` means delivered, `some e` means the client raised `e`. -/
abbrev SinkModel : Type := Recommendation → Option String

/-- The decimal rendering a Python f-string would interpolate for the value. -/
def renderVal (v : ℚ) : String := toString v

/-- perform_rca from the source: record the RCA display (trigger plus the
correlated error logs), generate a recommendation, and if one was produced
hand it to the producer.  The source wraps the send + flush in no handler,
so a raised delivery error escapes; the error carries the state at the time
of the raise, since the mutations already performed persist. -/
def performRca (sink : SinkModel) (st : EngineState) (name : String) (v : ℚ) :
    Except (String × EngineState) EngineState :=
  match generate_recommendation name (renderVal v) st.now st.now with
  | some r =>
    match sink r with
    | none =>
      Except.ok { st with
        rcaRuns := st.rcaRuns ++ [(name, v, performRcaShown st.logBuffer)],
        sent := st.sent ++ [r] }
    | some e =>
      Except.error (e, { st with
        rcaRuns := st.rcaRuns ++ [(name, v, performRcaShown st.logBuffer)] })
  | none =>
    Except.ok { st with
      rcaRuns := st.rcaRuns ++ [(name, v, performRcaShown st.logBuffer)] }

/-- One iteration of the metrics loop of process_message: look up or create
the model, score then learn, store the updated model, then branch on the
score: ALERT runs perform_rca, WARNING only reports. -/
def processMetric (sink : SinkModel) (st : EngineState) (nv : String × ℚ) :
    Except (String × EngineState) EngineState :=
  let md := getOrCreate st.detectors nv.1
  let score := scoreOne md.1 nv.2
  let model2 := learnOne md.1 nv.2
  let st1 := { st with detectors := updateAssoc md.2 nv.1 model2 }
  if score > 8 / 10 then performRca sink st1 nv.1 nv.2
  else if score > 5 / 10 then Except.ok { st1 with warns := st1.warns ++ [nv] }
  else Except.ok st1

/-- Fold a fallible step over a list, stopping at the first raise, as a
Python for-loop does. -/
def foldE (f : EngineState → α → Except (String × EngineState) EngineState) :
    EngineState → List α → Except (String × EngineState) EngineState
  | st, [] => Except.ok st
  | st, x :: xs =>
    match f st x with
    | Except.ok st1 => foldE f st1 xs
    | Except.error e => Except.error e

/-- process_message from the source: the metrics topic runs the per-sample
loop; the logs topic appends every parsed record to the bounded buffer; any
other topic is ignored. -/
def processMessage (sink : SinkModel) (st : EngineState) (msg : KMessage) :
    Except (String × EngineState) EngineState :=
  if msg.topic == "telemetry-metrics" then
    foldE (processMetric sink) st msg.metricsPayload
  else if msg.topic == "telemetry-logs" then
    Except.ok (msg.logsPayload.foldl
      (fun s l => { s with logBuffer := dequeAppend LOG_BUFFER_SIZE s.logBuffer l }) st)
  else Except.ok st

/-- The engine state after a processing step, whether it returned normally or
raised: a raise carries the state at the point of the raise. -/
def finalState : Except (String × EngineState) EngineState → EngineState
  | Except.ok s => s
  | Except.error e => e.2

/-- Whether a processing step raised. -/
def isErr : Except (String × EngineState) EngineState → Bool
  | Except.ok _ => false
  | Except.error _ => true

/-- A sink that always delivers. -/
def okSink : SinkModel := fun _ => none

/-- A sink whose underlying client raises, as kafka-python's send does when
the broker is unreachable. -/
def failSink : SinkModel := fun _ => some "KafkaTimeoutError"

/-- A model state whose next score exceeds the alert threshold, standing in
for a warmed-up detector observing an extreme outlier. -/
def alertModel : HST :=
  { params := ⟨1, 0, 1, 0⟩, trees := [HSTree.leaf 0 0], phase := 0, rotations := 1 }

/-- Engine state holding one warmed-up detector for a latency metric. -/
def st0 : EngineState :=
  { detectors := [("upstream_latency", alertModel)], logBuffer := [],
    rcaRuns := [], sent := [], warns := [], now := 0 }

/-- A metrics message whose single sample scores above the alert threshold
and matches the latency recommendation rule. -/
def msgAlert : KMessage :=
  { topic := "telemetry-metrics", metricsPayload := [("upstream_latency", 5)],
    logsPayload := [] }

/-- A logs-topic message carrying one parsed record. -/
def msgLogs : KMessage :=
  { topic := "telemetry-logs", metricsPayload := [],
    logsPayload := [⟨0, "INFO", "boot"⟩] }

/-- The RCA example buffer from the spec, oldest to newest. -/
def exBuf : List LogRecord :=
  [⟨0, "ERROR", "disk full"⟩, ⟨0, "INFO", "ok"⟩,
   ⟨0, "ERROR", "disk full"⟩, ⟨0, "FATAL", "oom"⟩]

/-- All counts in a tree are bounded: every reference count by `ws`, every
current count by `ph`. -/
def countsBounded (ph ws : Nat) : HSTree → Prop
  | HSTree.leaf r c => r ≤ ws ∧ c ≤ ph
  | HSTree.node r c _ l rt =>
    (r ≤ ws ∧ c ≤ ph) ∧ countsBounded ph ws l ∧ countsBounded ph ws rt

/-- The tree is a complete binary tree of exactly the given depth. -/
def depthIs : Nat → HSTree → Prop
  | 0, HSTree.leaf _ _ => True
  | _ + 1, HSTree.leaf _ _ => False
  | 0, HSTree.node _ _ _ _ _ => False
  | h + 1, HSTree.node _ _ _ l rt => depthIs h l ∧ depthIs h rt

/-- Every count in the tree is zero. -/
def countsZero : HSTree → Prop
  | HSTree.leaf r c => r = 0 ∧ c = 0
  | HSTree.node r c _ l rt => (r = 0 ∧ c = 0) ∧ countsZero l ∧ countsZero rt

/-- Every reference count in the tree is zero. -/
def refsZero : HSTree → Prop
  | HSTree.leaf r _ => r = 0
  | HSTree.node r _ _ l rt => r = 0 ∧ refsZero l ∧ refsZero rt

/-- Invariant maintained by every model state reachable from hstInit: the
phase stays below the window size, the ensemble keeps its size, every tree
keeps its depth, and every reference count is bounded by the window size
while every current count is bounded by the phase. -/
def hstInv (m : HST) : Prop :=
  m.phase < m.params.windowSize ∧
  m.trees.length = m.params.nTrees ∧
  ∀ t ∈ m.trees, depthIs m.params.height t ∧
    countsBounded m.phase m.params.windowSize t

theorem startsWithChars_append (s t : List Char) : startsWithChars s (s ++ t) = true := by
  induction s with
  | nil => rfl
  | cons a as ih => simp [startsWithChars, ih]

theorem hasSubstrChars_of_startsWith (s l : List Char)
    (h : startsWithChars s l = true) : hasSubstrChars s l = true := by
  cases l with
  | nil =>
    cases s with
    | nil => rfl
    | cons a as => simp [startsWithChars] at h
  | cons b bs => simp [hasSubstrChars, h]

theorem hasSubstrChars_cons (s : List Char) (b : Char) (l : List Char)
    (h : hasSubstrChars s l = true) : hasSubstrChars s (b :: l) = true := by
  simp [hasSubstrChars, h]

theorem hasSubstrChars_middle (s p q : List Char) :
    hasSubstrChars s (p ++ (s ++ q)) = true := by
  induction p with
  | nil =>
    simpa using hasSubstrChars_of_startsWith s (s ++ q) (startsWithChars_append s q)
  | cons b bs ih => exact hasSubstrChars_cons s b (bs ++ (s ++ q)) ih

theorem strData_append (s t : String) : (s ++ t).data = s.data ++ t.data := by
  cases s; cases t; rfl

theorem hasSubstr_middle (s a b : String) : hasSubstr s (a ++ s ++ b) = true := by
  unfold hasSubstr
  rw [strData_append, strData_append, List.append_assoc]
  exact hasSubstrChars_middle s.data a.data b.data

theorem collectUnique_eq_take :
    ∀ (l : List LogRecord) (seen : List String) (c : Nat), c ≤ 4 →
      collectUnique l seen c = (dedupMessages seen l).take (5 - c)
  | [], seen, c, _ => by simp [collectUnique, dedupMessages]
  | l :: rest, seen, c, hc => by
    by_cases hm : l.message ∈ seen
    · simp [collectUnique, dedupMessages, hm,
        collectUnique_eq_take rest seen c hc]
    · by_cases h5 : c + 1 ≥ 5
      · have hc4 : c = 4 := by omega
        subst hc4
        simp [collectUnique, dedupMessages, hm, h5]
      · have hs : 5 - c = (5 - (c + 1)) + 1 := by omega
        simp [collectUnique, dedupMessages, hm, h5, hs,
          collectUnique_eq_take rest (l.message :: seen) (c + 1) (by omega)]

/-- Claim C1: the spec says a failed recommendation publish is only logged and
processing continues, with no exception escaping process_message.  The source
installs no handler around producer.send / producer.flush, so when the sink
raises while publishing a generated recommendation, the exception escapes
process_message: processing one alerting metric sample with a raising sink
ends in an error, not a normal return. -/
theorem claim_C1_sink_error_escapes :
    isErr (processMessage failSink st0 msgAlert) = true := by
  have hscore : scoreOne alertModel 5 = 1 := by
    norm_num [scoreOne, alertModel, maxMassQ, invPowSum, pathMass]
  have hlat : (hasSubstr "request_time" "upstream_latency" ||
      hasSubstr "latency" "upstream_latency") = true := by decide
  simp only [processMessage, msgAlert, beq_self_eq_true, if_true, st0, foldE,
    processMetric, getOrCreate, lookupModel, hscore, performRca,
    generate_recommendation, hlat, failSink, isErr]
  norm_num

/-- Claim C2: the records perform_rca displays are exactly the spec's scan:
walk the buffer most-recent-first, keep severity ERROR / FATAL or messages
containing the case-insensitive substring "error", deduplicate by exact
message text with the first occurrence in scan order winning, stop after 5
unique messages; and on the spec's four-record example buffer the result is
exactly the FATAL "oom" record then the ERROR "disk full" record. -/
theorem claim_C2_rca_scan :
    (∀ buf : List LogRecord, performRcaShown buf = rcaSpecScan buf) ∧
    performRcaShown exBuf =
      [⟨0, "FATAL", "oom"⟩, ⟨0, "ERROR", "disk full"⟩] := by
  constructor
  · intro buf
    unfold performRcaShown rcaSpecScan
    rw [List.filter_reverse]
    rw [collectUnique_eq_take ((buf.filter isErrorLog).reverse) [] 0 (by omega)]
  · decide

/-- Claim C3 counterexample: for the cpu rule, the triggering value is not
interpolated: generate_recommendation on a cpu metric returns a
recommendation whose description and details do not contain the rendered
value "95.0". -/
theorem claim_C3_cex :
    (generate_recommendation "node_cpu_usage" "95.0" 0 0).map
      (fun r => (hasSubstr "95.0" r.description, hasSubstr "95.0" r.details)) =
      some (false, false) := by decide

/-- Claim C3 (amended): the triggering value is interpolated into the
description and details of the request_time / latency template; the cpu
template's description and details are fixed texts that do not depend on the
value. -/
theorem claim_C3_amended :
    ∀ (name vs : String) (rid ts : Nat),
      ((hasSubstr "request_time" name || hasSubstr "latency" name) = true →
        ∃ r, generate_recommendation name vs rid ts = some r ∧
          hasSubstr vs r.description = true ∧ hasSubstr vs r.details = true) ∧
      ((hasSubstr "request_time" name || hasSubstr "latency" name) = false →
        hasSubstr "cpu" name = true →
        ∃ r, generate_recommendation name vs rid ts = some r ∧
          r.description =
            "High CPU usage detected. Tune worker_connections to handle concurrency better." ∧
          r.details =
            "CPU saturation indicates thread contention. Increasing worker_connections provided we have enough file descriptors.") := by
  intro name vs rid ts
  constructor
  · intro h
    simp only [generate_recommendation, h, if_true]
    exact ⟨_, rfl, hasSubstr_middle vs "High latency detected (" _,
      hasSubstr_middle vs "Latency spike of " _⟩
  · intro h hc
    simp only [generate_recommendation, h, hc, Bool.false_eq_true, if_false, if_true]
    exact ⟨_, rfl, rfl, rfl⟩

/-- Witness for C3 (amended), at the spec's latency example: the rendered
value occurs in both texts. -/
theorem claim_C3_amended_witness :
    (generate_recommendation "nginx_request_time_ms" "450.0" 0 0).map
      (fun r => (hasSubstr "450.0" r.description, hasSubstr "450.0" r.details)) =
      some (true, true) := by
  obtain ⟨r, h1, h2, h3⟩ :=
    (claim_C3_amended "nginx_request_time_ms" "450.0" 0 0).1 (by decide)
  rw [h1]
  simp [h2, h3]

/-- Claim C6: the recommendation rule table: a name containing request_time
or latency yields the Performance / high / 0.89 recommendation; otherwise a
name containing cpu yields the medium / 0.75 recommendation; otherwise none
is returned (and generate_recommendation is total, so no error is raised);
including the spec's three concrete examples. -/
theorem claim_C6_rules :
    (∀ (name vs : String) (rid ts : Nat),
      ((hasSubstr "request_time" name || hasSubstr "latency" name) = true →
        ∃ r, generate_recommendation name vs rid ts = some r ∧
          r.category = "Performance" ∧ r.impact = "high" ∧ r.confidence = 89 / 100) ∧
      ((hasSubstr "request_time" name || hasSubstr "latency" name) = false →
        hasSubstr "cpu" name = true →
        ∃ r, generate_recommendation name vs rid ts = some r ∧
          r.impact = "medium" ∧ r.confidence = 75 / 100) ∧
      ((hasSubstr "request_time" name || hasSubstr "latency" name) = false →
        hasSubstr "cpu" name = false →
        generate_recommendation name vs rid ts = none)) ∧
    (∃ r, generate_recommendation "nginx_request_time_ms" "450.0" 0 0 = some r ∧
      r.category = "Performance" ∧ r.impact = "high") ∧
    (∃ r, generate_recommendation "node_cpu_usage" "95.0" 0 0 = some r ∧
      r.impact = "medium") ∧
    generate_recommendation "disk_free_bytes" "10.0" 0 0 = none := by
  have H : ∀ (name vs : String) (rid ts : Nat),
      ((hasSubstr "request_time" name || hasSubstr "latency" name) = true →
        ∃ r, generate_recommendation name vs rid ts = some r ∧
          r.category = "Performance" ∧ r.impact = "high" ∧ r.confidence = 89 / 100) ∧
      ((hasSubstr "request_time" name || hasSubstr "latency" name) = false →
        hasSubstr "cpu" name = true →
        ∃ r, generate_recommendation name vs rid ts = some r ∧
          r.impact = "medium" ∧ r.confidence = 75 / 100) ∧
      ((hasSubstr "request_time" name || hasSubstr "latency" name) = false →
        hasSubstr "cpu" name = false →
        generate_recommendation name vs rid ts = none) := by
    refine fun name vs rid ts => ⟨?_, ?_, ?_⟩
    · intro h
      simp only [generate_recommendation, h, if_true]
      exact ⟨_, rfl, rfl, rfl, rfl⟩
    · intro h hc
      simp only [generate_recommendation, h, hc, Bool.false_eq_true, if_false, if_true]
      exact ⟨_, rfl, rfl, rfl⟩
    · intro h hc
      simp only [generate_recommendation, h, hc, Bool.false_eq_true, if_false]
  refine ⟨H, ?_, ?_, ?_⟩
  · obtain ⟨r, h1, h2, h3, _⟩ :=
      (H "nginx_request_time_ms" "450.0" 0 0).1 (by decide)
    exact ⟨r, h1, h2, h3⟩
  · obtain ⟨r, h1, h2, _⟩ :=
      (H "node_cpu_usage" "95.0" 0 0).2.1 (by decide) (by decide)
    exact ⟨r, h1, h2⟩
  · exact (H "disk_free_bytes" "10.0" 0 0).2.2 (by decide) (by decide)

/-- Witness for C6, at a latency metric name. -/
theorem claim_C6_rules_witness :
    (generate_recommendation "upstream_latency_p99" "1.5" 1 2).map
      (fun r => (r.category, r.impact, r.confidence)) =
      some ("Performance", "high", 89 / 100) := by
  obtain ⟨r, h1, h2, h3, h4⟩ :=
    (claim_C6_rules.1 "upstream_latency_p99" "1.5" 1 2).1 (by decide)
  rw [h1]
  simp [h2, h3, h4]

theorem performRca_logBuffer (sink : SinkModel) (st : EngineState) (name : String) (v : ℚ) :
    (finalState (performRca sink st name v)).logBuffer = st.logBuffer := by
  unfold performRca
  split
  · split
    · rfl
    · rfl
  · rfl

theorem performRca_ok_rcaRuns (st : EngineState) (name : String) (v : ℚ) :
    (finalState (performRca okSink st name v)).rcaRuns =
      st.rcaRuns ++ [(name, v, performRcaShown st.logBuffer)] := by
  unfold performRca
  cases hg : generate_recommendation name (renderVal v) st.now st.now with
  | none => rfl
  | some r => rfl

theorem processMetric_logBuffer (sink : SinkModel) (st : EngineState) (nv : String × ℚ) :
    (finalState (processMetric sink st nv)).logBuffer = st.logBuffer := by
  unfold processMetric
  by_cases h8 : scoreOne (getOrCreate st.detectors nv.1).1 nv.2 > 8 / 10
  · simp only [if_pos h8]
    exact performRca_logBuffer sink _ nv.1 nv.2
  · by_cases h5 : scoreOne (getOrCreate st.detectors nv.1).1 nv.2 > 5 / 10
    · simp only [if_neg h8, if_pos h5]; rfl
    · simp only [if_neg h8, if_neg h5]; rfl

theorem foldE_logBuffer (sink : SinkModel) :
    ∀ (l : List (String × ℚ)) (st : EngineState),
      (finalState (foldE (processMetric sink) st l)).logBuffer = st.logBuffer
  | [], _ => rfl
  | x :: xs, st => by
    have hx := processMetric_logBuffer sink st x
    rw [foldE]
    cases h : processMetric sink st x with
    | ok st1 =>
      rw [h] at hx
      exact (foldE_logBuffer sink xs st1).trans hx
    | error e =>
      rw [h] at hx
      exact hx

theorem foldLogs_logBuffer :
    ∀ (l : List LogRecord) (st : EngineState),
      (l.foldl (fun s r => { s with logBuffer := dequeAppend LOG_BUFFER_SIZE s.logBuffer r }) st).logBuffer
        = l.foldl (dequeAppend LOG_BUFFER_SIZE) st.logBuffer
  | [], _ => rfl
  | r :: rest, st => by
    rw [List.foldl_cons, List.foldl_cons]
    exact foldLogs_logBuffer rest
      { st with logBuffer := dequeAppend LOG_BUFFER_SIZE st.logBuffer r }

theorem foldLogs_detectors :
    ∀ (l : List LogRecord) (st : EngineState),
      (l.foldl (fun s r => { s with logBuffer := dequeAppend LOG_BUFFER_SIZE s.logBuffer r }) st).detectors
        = st.detectors
  | [], _ => rfl
  | r :: rest, st => by
    rw [List.foldl_cons]
    exact foldLogs_detectors rest
      { st with logBuffer := dequeAppend LOG_BUFFER_SIZE st.logBuffer r }

theorem foldDeque_eq (B : Nat) :
    ∀ (xs s : List LogRecord), s.length ≤ B →
      xs.foldl (dequeAppend B) s = (s ++ xs).drop ((s ++ xs).length - B)
  | [], s, hs => by
    have h0 : s.length - B = 0 := by omega
    simp [h0]
  | x :: xs, s, hs => by
    have hd : dequeAppend B s x = (s ++ [x]).drop ((s ++ [x]).length - B) := rfl
    have hlen : (dequeAppend B s x).length ≤ B := by
      rw [hd, List.length_drop]
      omega
    rw [List.foldl_cons, foldDeque_eq B xs _ hlen, hd]
    have hk : (s ++ [x]).length - B ≤ (s ++ [x]).length := Nat.sub_le _ _
    rw [← List.drop_append_of_le_length hk]
    rw [List.drop_drop]
    congr 1
    · have f1 := List.length_drop ((s ++ [x]).length - B) (s ++ [x] ++ xs)
      have f2 : (s ++ [x] ++ xs).length = s.length + 1 + xs.length := by
        rw [List.length_append, List.length_append]; rfl
      have f3 : (s ++ x :: xs).length = s.length + (xs.length + 1) := by
        rw [List.length_append]; rfl
      have f4 : (s ++ [x]).length = s.length + 1 := by
        rw [List.length_append]; rfl
      omega
    · simp

/-- Claim C4: the tier of a score is ALERT exactly when the score is strictly
above 0.8, WARNING exactly when it is strictly above 0.5 and at most 0.8, and
NORMAL exactly when it is at most 0.5 (ties classify as the lower tier); and
on one metric sample, process_message runs the RCA step exactly when the tier
is ALERT (appending the perform_rca invocation record), while a WARNING only
appends the warning report, with no RCA run and nothing handed to the
producer. -/
theorem claim_C4_tiers :
    (∀ s : ℚ,
      (alertTier s = Tier.ALERT ↔ 8 / 10 < s) ∧
      (alertTier s = Tier.WARNING ↔ 5 / 10 < s ∧ s ≤ 8 / 10) ∧
      (alertTier s = Tier.NORMAL ↔ s ≤ 5 / 10)) ∧
    (∀ (st : EngineState) (name : String) (v : ℚ),
      (alertTier (scoreOne (getOrCreate st.detectors name).1 v) = Tier.ALERT →
        (finalState (processMetric okSink st (name, v))).rcaRuns =
          st.rcaRuns ++ [(name, v, performRcaShown st.logBuffer)]) ∧
      (alertTier (scoreOne (getOrCreate st.detectors name).1 v) ≠ Tier.ALERT →
        (finalState (processMetric okSink st (name, v))).rcaRuns = st.rcaRuns ∧
        (finalState (processMetric okSink st (name, v))).sent = st.sent) ∧
      (alertTier (scoreOne (getOrCreate st.detectors name).1 v) = Tier.WARNING →
        (finalState (processMetric okSink st (name, v))).warns = st.warns ++ [(name, v)])) := by
  constructor
  · intro s
    unfold alertTier
    split_ifs with h8 h5
    · exact ⟨⟨fun _ => h8, fun _ => rfl⟩,
        ⟨fun h => absurd h (by decide), fun h => absurd h8 (not_lt.mpr h.2)⟩,
        ⟨fun h => absurd h (by decide),
          fun h => absurd h8 (not_lt.mpr (h.trans (by norm_num)))⟩⟩
    · exact ⟨⟨fun h => absurd h (by decide), fun h => absurd h h8⟩,
        ⟨fun _ => ⟨h5, not_lt.mp h8⟩, fun _ => rfl⟩,
        ⟨fun h => absurd h (by decide), fun h => absurd h5 (not_lt.mpr h)⟩⟩
    · exact ⟨⟨fun h => absurd h (by decide), fun h => absurd h h8⟩,
        ⟨fun h => absurd h (by decide), fun h => absurd h.1 h5⟩,
        ⟨fun _ => not_lt.mp h5, fun _ => rfl⟩⟩
  · intro st name v
    by_cases h8 : scoreOne (getOrCreate st.detectors name).1 v > 8 / 10
    · have ht : alertTier (scoreOne (getOrCreate st.detectors name).1 v) = Tier.ALERT := by
        unfold alertTier; rw [if_pos h8]
      simp only [processMetric, if_pos h8]
      refine ⟨fun _ => ?_, fun hn => absurd ht hn, fun hw => ?_⟩
      · exact performRca_ok_rcaRuns _ name v
      · rw [ht] at hw; exact absurd hw (by decide)
    · by_cases h5 : scoreOne (getOrCreate st.detectors name).1 v > 5 / 10
      · have ht : alertTier (scoreOne (getOrCreate st.detectors name).1 v) = Tier.WARNING := by
          unfold alertTier; rw [if_neg h8, if_pos h5]
        simp only [processMetric, if_neg h8, if_pos h5]
        refine ⟨fun ha => absurd ha ?_, fun _ => ⟨rfl, rfl⟩, fun _ => rfl⟩
        rw [ht]; decide
      · have ht : alertTier (scoreOne (getOrCreate st.detectors name).1 v) = Tier.NORMAL := by
          unfold alertTier; rw [if_neg h8, if_neg h5]
        simp only [processMetric, if_neg h8, if_neg h5]
        refine ⟨fun ha => absurd ha ?_, fun _ => ⟨rfl, rfl⟩, fun hw => absurd hw ?_⟩
        · rw [ht]; decide
        · rw [ht]; decide

/-- Witness for C4, at a score strictly above the alert threshold. -/
theorem claim_C4_tiers_witness : alertTier (9 / 10) = Tier.ALERT :=
  (claim_C4_tiers.1 (9 / 10)).1.mpr (by norm_num)

/-- Claim C5: folding any sequence of records into an empty deque of capacity
B yields exactly the last B records in arrival order, so the buffer never
holds more than B records; and on a logs-topic message, process_message
leaves the buffer holding exactly the suffix of capacity LOG_BUFFER_SIZE of
the old buffer followed by the new records. -/
theorem claim_C5_buffer :
    (∀ (B : Nat) (xs : List LogRecord),
      xs.foldl (dequeAppend B) [] = xs.drop (xs.length - B) ∧
      (xs.foldl (dequeAppend B) []).length ≤ B) ∧
    (∀ (sink : SinkModel) (st : EngineState) (msg : KMessage),
      msg.topic = "telemetry-logs" → st.logBuffer.length ≤ LOG_BUFFER_SIZE →
      (finalState (processMessage sink st msg)).logBuffer =
        (st.logBuffer ++ msg.logsPayload).drop
          ((st.logBuffer ++ msg.logsPayload).length - LOG_BUFFER_SIZE)) := by
  constructor
  · intro B xs
    have h := foldDeque_eq B xs [] (by simp)
    simp only [List.nil_append] at h
    refine ⟨h, ?_⟩
    rw [h, List.length_drop]
    omega
  · intro sink st msg ht hb
    have h1 : (msg.topic == "telemetry-metrics") = false := by
      rw [ht]; decide
    have h2 : (msg.topic == "telemetry-logs") = true := by
      rw [ht]; decide
    simp only [processMessage, h1, h2, Bool.false_eq_true, if_false, if_true, finalState]
    rw [foldLogs_logBuffer]
    exact foldDeque_eq LOG_BUFFER_SIZE msg.logsPayload st.logBuffer hb

/-- Witness for C5, on a concrete logs message and empty buffer. -/
theorem claim_C5_buffer_witness :
    (finalState (processMessage okSink st0 msgLogs)).logBuffer =
      (st0.logBuffer ++ msgLogs.logsPayload).drop
        ((st0.logBuffer ++ msgLogs.logsPayload).length - LOG_BUFFER_SIZE) :=
  claim_C5_buffer.2 okSink st0 msgLogs rfl (by decide)

/-- Claim C10: processing a metrics-topic message never changes the log
correlation buffer, and processing a logs-topic message never changes the
model registry (so no model is touched or created on the logs pathway) —
whatever state the engine is in and whatever the sink does. -/
theorem claim_C10_frame :
    ∀ (sink : SinkModel) (st : EngineState) (msg : KMessage),
      (msg.topic = "telemetry-metrics" →
        (finalState (processMessage sink st msg)).logBuffer = st.logBuffer) ∧
      (msg.topic = "telemetry-logs" →
        (finalState (processMessage sink st msg)).detectors = st.detectors) := by
  intro sink st msg
  constructor
  · intro ht
    have h1 : (msg.topic == "telemetry-metrics") = true := by
      rw [ht]; decide
    simp only [processMessage, h1, if_true]
    exact foldE_logBuffer sink msg.metricsPayload st
  · intro ht
    have h1 : (msg.topic == "telemetry-metrics") = false := by
      rw [ht]; decide
    have h2 : (msg.topic == "telemetry-logs") = true := by
      rw [ht]; decide
    simp only [processMessage, h1, h2, Bool.false_eq_true, if_false, if_true, finalState]
    exact foldLogs_detectors msg.logsPayload st

/-- Witness for C10, on concrete metrics and logs messages. -/
theorem claim_C10_frame_witness :
    (finalState (processMessage okSink st0 msgAlert)).logBuffer = st0.logBuffer ∧
    (finalState (processMessage okSink st0 msgLogs)).detectors = st0.detectors :=
  ⟨(claim_C10_frame okSink st0 msgAlert).1 rfl, (claim_C10_frame okSink st0 msgLogs).2 rfl⟩

theorem countsBounded_mono :
    ∀ (t : HSTree) (ph ph' ws : Nat), ph ≤ ph' →
      countsBounded ph ws t → countsBounded ph' ws t
  | HSTree.leaf r c, ph, ph', ws, h, hb => ⟨hb.1, le_trans hb.2 h⟩
  | HSTree.node r c sp l rt, ph, ph', ws, h, hb =>
    ⟨⟨hb.1.1, le_trans hb.1.2 h⟩, countsBounded_mono l ph ph' ws h hb.2.1,
      countsBounded_mono rt ph ph' ws h hb.2.2⟩

theorem countsZero_bounded :
    ∀ (t : HSTree) (ph ws : Nat), countsZero t → countsBounded ph ws t
  | HSTree.leaf r c, ph, ws, h =>
    ⟨h.1.le.trans (Nat.zero_le ws), h.2.le.trans (Nat.zero_le ph)⟩
  | HSTree.node r c sp l rt, ph, ws, h =>
    ⟨⟨h.1.1.le.trans (Nat.zero_le ws), h.1.2.le.trans (Nat.zero_le ph)⟩,
      countsZero_bounded l ph ws h.2.1, countsZero_bounded rt ph ws h.2.2⟩

theorem countsZero_refs :
    ∀ t : HSTree, countsZero t → refsZero t
  | HSTree.leaf r c, h => h.1
  | HSTree.node r c sp l rt, h =>
    ⟨h.1.1, countsZero_refs l h.2.1, countsZero_refs rt h.2.2⟩

theorem learnTree_depth (v : ℚ) :
    ∀ (t : HSTree) (h : Nat), depthIs h t → depthIs h (learnTree v t)
  | HSTree.leaf r c, h, hd => by
    cases h with
    | zero => trivial
    | succ h => exact hd.elim
  | HSTree.node r c sp l rt, h, hd => by
    cases h with
    | zero => exact hd.elim
    | succ h =>
      unfold learnTree
      by_cases hv : v < sp
      · rw [if_pos hv]
        exact ⟨learnTree_depth v l h hd.1, hd.2⟩
      · rw [if_neg hv]
        exact ⟨hd.1, learnTree_depth v rt h hd.2⟩

theorem learnTree_counts (v : ℚ) :
    ∀ (t : HSTree) (ph ws : Nat),
      countsBounded ph ws t → countsBounded (ph + 1) ws (learnTree v t)
  | HSTree.leaf r c, ph, ws, hb => ⟨hb.1, Nat.succ_le_succ hb.2⟩
  | HSTree.node r c sp l rt, ph, ws, hb => by
    unfold learnTree
    by_cases hv : v < sp
    · rw [if_pos hv]
      exact ⟨⟨hb.1.1, Nat.succ_le_succ hb.1.2⟩, learnTree_counts v l ph ws hb.2.1,
        countsBounded_mono rt ph (ph + 1) ws (Nat.le_succ ph) hb.2.2⟩
    · rw [if_neg hv]
      exact ⟨⟨hb.1.1, Nat.succ_le_succ hb.1.2⟩,
        countsBounded_mono l ph (ph + 1) ws (Nat.le_succ ph) hb.2.1,
        learnTree_counts v rt ph ws hb.2.2⟩

theorem learnTree_refs (v : ℚ) :
    ∀ t : HSTree, refsZero t → refsZero (learnTree v t)
  | HSTree.leaf r c, h => h
  | HSTree.node r c sp l rt, h => by
    unfold learnTree
    by_cases hv : v < sp
    · rw [if_pos hv]
      exact ⟨h.1, learnTree_refs v l h.2.1, h.2.2⟩
    · rw [if_neg hv]
      exact ⟨h.1, h.2.1, learnTree_refs v rt h.2.2⟩

theorem rotateTree_depth :
    ∀ (t : HSTree) (h : Nat), depthIs h t → depthIs h (rotateTree t)
  | HSTree.leaf r c, h, hd => by
    cases h with
    | zero => trivial
    | succ h => exact hd.elim
  | HSTree.node r c sp l rt, h, hd => by
    cases h with
    | zero => exact hd.elim
    | succ h =>
      exact ⟨rotateTree_depth l h hd.1, rotateTree_depth rt h hd.2⟩

theorem rotateTree_counts :
    ∀ (t : HSTree) (ph ws : Nat),
      countsBounded ph ws t → ph ≤ ws → countsBounded 0 ws (rotateTree t)
  | HSTree.leaf r c, ph, ws, hb, hle => ⟨le_trans hb.2 hle, Nat.le_refl 0⟩
  | HSTree.node r c sp l rt, ph, ws, hb, hle =>
    ⟨⟨le_trans hb.1.2 hle, Nat.le_refl 0⟩,
      rotateTree_counts l ph ws hb.2.1 hle, rotateTree_counts rt ph ws hb.2.2 hle⟩

theorem buildTree_depth :
    ∀ (d rng : Nat) (lo hi : ℚ), depthIs d (buildTree rng lo hi d).1
  | 0, rng, lo, hi => trivial
  | d + 1, rng, lo, hi => by
    simp only [buildTree]
    exact ⟨buildTree_depth d _ _ _, buildTree_depth d _ _ _⟩

theorem buildTree_zero :
    ∀ (d rng : Nat) (lo hi : ℚ), countsZero (buildTree rng lo hi d).1
  | 0, rng, lo, hi => ⟨rfl, rfl⟩
  | d + 1, rng, lo, hi => by
    simp only [buildTree]
    exact ⟨⟨rfl, rfl⟩, buildTree_zero d _ _ _, buildTree_zero d _ _ _⟩

theorem buildTrees_length :
    ∀ (n rng : Nat) (lo hi : ℚ) (d : Nat), (buildTrees rng lo hi d n).1.length = n
  | 0, rng, lo, hi, d => rfl
  | n + 1, rng, lo, hi, d => by
    simp only [buildTrees, List.length_cons]
    rw [buildTrees_length n _ _ _ _]

theorem buildTrees_mem :
    ∀ (n rng : Nat) (lo hi : ℚ) (d : Nat) (t : HSTree),
      t ∈ (buildTrees rng lo hi d n).1 → depthIs d t ∧ countsZero t
  | 0, rng, lo, hi, d, t, ht => absurd ht (List.not_mem_nil t)
  | n + 1, rng, lo, hi, d, t, ht => by
    simp only [buildTrees] at ht
    rcases List.mem_cons.mp ht with h | h
    · subst h
      exact ⟨buildTree_depth d _ _ _, buildTree_zero d _ _ _⟩
    · exact buildTrees_mem n _ _ _ _ t h

theorem hstInit_inv (p : HSTParams) (hw : 0 < p.windowSize) : hstInv (hstInit p) := by
  refine ⟨hw, buildTrees_length p.nTrees _ _ _ _, ?_⟩
  intro t ht
  have h := buildTrees_mem p.nTrees p.seed 0 1 p.height t ht
  exact ⟨h.1, countsZero_bounded t _ _ h.2⟩

theorem learnOne_params (m : HST) (v : ℚ) : (learnOne m v).params = m.params := by
  unfold learnOne
  split
  · rfl
  · rfl

theorem learnOne_inv (m : HST) (v : ℚ) (hw : 0 < m.params.windowSize)
    (h : hstInv m) : hstInv (learnOne m v) := by
  obtain ⟨hph, hlen, hmem⟩ := h
  unfold learnOne
  by_cases hcond : m.phase + 1 ≥ m.params.windowSize
  · rw [if_pos hcond]
    refine ⟨hw, ?_, ?_⟩
    · simp [hlen]
    · intro t ht
      obtain ⟨t1, ht1, rfl⟩ := List.mem_map.mp ht
      obtain ⟨t0, ht0, rfl⟩ := List.mem_map.mp ht1
      refine ⟨rotateTree_depth _ _ (learnTree_depth v t0 _ (hmem t0 ht0).1), ?_⟩
      have hb1 := learnTree_counts v t0 _ _ (hmem t0 ht0).2
      exact rotateTree_counts _ _ _ hb1 hph
  · rw [if_neg hcond]
    have hp1 : m.phase + 1 < m.params.windowSize := by omega
    refine ⟨hp1, by simp [hlen], ?_⟩
    intro t ht
    obtain ⟨t0, ht0, rfl⟩ := List.mem_map.mp ht
    exact ⟨learnTree_depth v t0 _ (hmem t0 ht0).1,
      learnTree_counts v t0 _ _ (hmem t0 ht0).2⟩

theorem learnSeq_params :
    ∀ (xs : List ℚ) (m : HST), (learnSeq m xs).params = m.params
  | [], m => rfl
  | v :: vs, m => (learnSeq_params vs (learnOne m v)).trans (learnOne_params m v)

theorem learnSeq_inv :
    ∀ (xs : List ℚ) (m : HST), 0 < m.params.windowSize → hstInv m →
      hstInv (learnSeq m xs)
  | [], m, _, h => h
  | v :: vs, m, hw, h =>
    learnSeq_inv vs (learnOne m v)
      (by rw [learnOne_params]; exact hw) (learnOne_inv m v hw h)

theorem invPowSum_pos : ∀ h : Nat, 0 < invPowSum h
  | 0 => one_pos
  | h + 1 => by
    have := invPowSum_pos h
    unfold invPowSum
    positivity

theorem pathMass_nonneg (v : ℚ) : ∀ (t : HSTree) (d : Nat), 0 ≤ pathMass v t d
  | HSTree.leaf r c, d => by
    unfold pathMass
    positivity
  | HSTree.node r c sp l rt, d => by
    unfold pathMass
    have hl := pathMass_nonneg v l (d + 1)
    have hr := pathMass_nonneg v rt (d + 1)
    by_cases hv : v < sp
    · rw [if_pos hv]; positivity
    · rw [if_neg hv]; positivity

theorem pathMass_le (v : ℚ) (ph ws : Nat) :
    ∀ (t : HSTree) (h d : Nat), depthIs h t → countsBounded ph ws t →
      pathMass v t d ≤ (ws : ℚ) * invPowSum h / 2 ^ d
  | HSTree.leaf r c, h, d, hd, hb => by
    cases h with
    | zero =>
      unfold pathMass invPowSum
      rw [mul_one]
      have hr : (r : ℚ) ≤ (ws : ℚ) := by exact_mod_cast hb.1
      gcongr
    | succ h => exact hd.elim
  | HSTree.node r c sp l rt, h, d, hd, hb => by
    cases h with
    | zero => exact hd.elim
    | succ h =>
      have hchild : (if v < sp then pathMass v l (d + 1) else pathMass v rt (d + 1)) ≤
          (ws : ℚ) * invPowSum h / 2 ^ (d + 1) := by
        by_cases hv : v < sp
        · rw [if_pos hv]; exact pathMass_le v ph ws l h (d + 1) hd.1 hb.2.1
        · rw [if_neg hv]; exact pathMass_le v ph ws rt h (d + 1) hd.2 hb.2.2
      have hr : (r : ℚ) / 2 ^ d ≤ (ws : ℚ) / 2 ^ d := by
        have hrw : (r : ℚ) ≤ (ws : ℚ) := by exact_mod_cast hb.1.1
        gcongr
      calc pathMass v (HSTree.node r c sp l rt) d
          = (r : ℚ) / 2 ^ d +
            (if v < sp then pathMass v l (d + 1) else pathMass v rt (d + 1)) := rfl
        _ ≤ (ws : ℚ) / 2 ^ d + (ws : ℚ) * invPowSum h / 2 ^ (d + 1) :=
            add_le_add hr hchild
        _ = (ws : ℚ) * invPowSum (h + 1) / 2 ^ d := by
            show (ws : ℚ) / 2 ^ d + (ws : ℚ) * invPowSum h / 2 ^ (d + 1) =
              (ws : ℚ) * (1 + invPowSum h / 2) / 2 ^ d
            have h2 : (2 : ℚ) ^ d ≠ 0 := by positivity
            field_simp
            ring

theorem sum_pathMass_le (v A : ℚ) :
    ∀ l : List HSTree, (∀ t ∈ l, pathMass v t 0 ≤ A) →
      (l.map (fun t => pathMass v t 0)).sum ≤ (l.length : ℚ) * A
  | [], _ => by simp
  | t :: ts, h => by
    simp only [List.map_cons, List.sum_cons, List.length_cons]
    have h1 := h t (List.mem_cons_self t ts)
    have h2 := sum_pathMass_le v A ts (fun u hu => h u (List.mem_cons_of_mem t hu))
    calc pathMass v t 0 + (ts.map (fun t => pathMass v t 0)).sum
        ≤ A + (ts.length : ℚ) * A := add_le_add h1 h2
      _ = ((ts.length : ℚ) + 1) * A := by ring
      _ = (((ts.length + 1 : Nat) : ℚ)) * A := by push_cast; ring

theorem scoreOne_bounds (m : HST) (v : ℚ) (hinv : hstInv m)
    (hn : 0 < m.params.nTrees) (hw : 0 < m.params.windowSize) :
    0 ≤ scoreOne m v ∧ scoreOne m v ≤ 1 := by
  unfold scoreOne
  by_cases hrot : m.rotations = 0
  · rw [if_pos hrot]
    norm_num
  · rw [if_neg hrot]
    obtain ⟨hph, hlen, hmem⟩ := hinv
    have hpos : (0 : ℚ) < maxMassQ m.params := by
      unfold maxMassQ
      have h1 := invPowSum_pos m.params.height
      have h2 : (0 : ℚ) < (m.params.nTrees : ℚ) := by exact_mod_cast hn
      have h3 : (0 : ℚ) < (m.params.windowSize : ℚ) := by exact_mod_cast hw
      positivity
    have hS0 : 0 ≤ (m.trees.map (fun t => pathMass v t 0)).sum := by
      apply List.sum_nonneg
      intro x hx
      obtain ⟨t, ht, rfl⟩ := List.mem_map.mp hx
      exact pathMass_nonneg v t 0
    have hSle : (m.trees.map (fun t => pathMass v t 0)).sum ≤ maxMassQ m.params := by
      have hA : ∀ t ∈ m.trees,
          pathMass v t 0 ≤ (m.params.windowSize : ℚ) * invPowSum m.params.height := by
        intro t ht
        have hb := pathMass_le v m.phase m.params.windowSize t m.params.height 0
          (hmem t ht).1 (hmem t ht).2
        simpa using hb
      have hs := sum_pathMass_le v _ m.trees hA
      rw [hlen] at hs
      calc (m.trees.map (fun t => pathMass v t 0)).sum
          ≤ (m.params.nTrees : ℚ) *
            ((m.params.windowSize : ℚ) * invPowSum m.params.height) := hs
        _ = maxMassQ m.params := by unfold maxMassQ; ring
    have hq0 : 0 ≤ (m.trees.map (fun t => pathMass v t 0)).sum / maxMassQ m.params :=
      div_nonneg hS0 hpos.le
    have hq1 : (m.trees.map (fun t => pathMass v t 0)).sum / maxMassQ m.params ≤ 1 :=
      (div_le_one hpos).mpr hSle
    constructor
    · linarith
    · linarith

theorem learnSeq_preRotation :
    ∀ (xs : List ℚ) (m : HST), m.rotations = 0 → (∀ t ∈ m.trees, refsZero t) →
      m.phase + xs.length < m.params.windowSize →
      (learnSeq m xs).rotations = 0 ∧ (learnSeq m xs).phase = m.phase + xs.length ∧
      (∀ t ∈ (learnSeq m xs).trees, refsZero t)
  | [], m, h0, hz, _ => ⟨h0, by simp [learnSeq], hz⟩
  | v :: vs, m, h0, hz, hlt => by
    have hlen : (v :: vs).length = vs.length + 1 := rfl
    have hcond : ¬ (m.phase + 1 ≥ m.params.windowSize) := by omega
    have hlearn : learnOne m v =
        { m with trees := m.trees.map (learnTree v), phase := m.phase + 1 } := by
      unfold learnOne
      rw [if_neg hcond]
    have hrefs : ∀ t ∈ m.trees.map (learnTree v), refsZero t := by
      intro t ht
      obtain ⟨t0, ht0, rfl⟩ := List.mem_map.mp ht
      exact learnTree_refs v t0 (hz t0 ht0)
    have hlt2 :
        ({ m with trees := m.trees.map (learnTree v), phase := m.phase + 1 } : HST).phase
          + vs.length <
        ({ m with trees := m.trees.map (learnTree v), phase := m.phase + 1 } : HST).params.windowSize := by
      show m.phase + 1 + vs.length < m.params.windowSize
      omega
    have ih := learnSeq_preRotation vs
      { m with trees := m.trees.map (learnTree v), phase := m.phase + 1 } h0 hrefs hlt2
    rw [show learnSeq m (v :: vs) = learnSeq (learnOne m v) vs from rfl, hlearn]
    refine ⟨ih.1, ?_, ih.2.2⟩
    rw [ih.2.1]
    show m.phase + 1 + vs.length = m.phase + (v :: vs).length
    omega

/-- Claim C7: on any model state reachable by learning any sample sequence
from a freshly constructed model (with positive ensemble size and window
size, as the hard-coded hyperparameters are), the score of any value —
including extreme magnitudes and zero — lies in the unit interval. -/
theorem claim_C7_score_range :
    ∀ (p : HSTParams) (xs : List ℚ) (v : ℚ), 0 < p.nTrees → 0 < p.windowSize →
      0 ≤ scoreOne (learnSeq (hstInit p) xs) v ∧
        scoreOne (learnSeq (hstInit p) xs) v ≤ 1 := by
  intro p xs v hn hw
  have hpar : (learnSeq (hstInit p) xs).params = p := learnSeq_params xs (hstInit p)
  have hinv : hstInv (learnSeq (hstInit p) xs) :=
    learnSeq_inv xs (hstInit p) hw (hstInit_inv p hw)
  exact scoreOne_bounds _ v hinv (by rw [hpar]; exact hn) (by rw [hpar]; exact hw)

/-- Witness for C7, at the hard-coded hyperparameters, one learned sample and
an extreme scored value. -/
theorem claim_C7_score_range_witness :
    0 ≤ scoreOne (learnSeq (hstInit codeParams) [5]) 1000000000000 ∧
      scoreOne (learnSeq (hstInit codeParams) [5]) 1000000000000 ≤ 1 :=
  claim_C7_score_range codeParams [5] 1000000000000 (by decide) (by decide)

/-- Claim C8: before the first window rotation (fewer than window_size
learned samples), every reference count in the model is zero and every score
is exactly 0; the score is produced by the rotation-free branch, so no
division by the normalizer is involved there. -/
theorem claim_C8_preRotation :
    ∀ (p : HSTParams) (xs : List ℚ) (v : ℚ), xs.length < p.windowSize →
      (∀ t ∈ (learnSeq (hstInit p) xs).trees, refsZero t) ∧
      scoreOne (learnSeq (hstInit p) xs) v = 0 := by
  intro p xs v hlen
  have hz : ∀ t ∈ (hstInit p).trees, refsZero t := by
    intro t ht
    exact countsZero_refs t (buildTrees_mem p.nTrees p.seed 0 1 p.height t ht).2
  have hlt : (hstInit p).phase + xs.length < (hstInit p).params.windowSize := by
    show 0 + xs.length < p.windowSize
    omega
  have h := learnSeq_preRotation xs (hstInit p) rfl hz hlt
  refine ⟨h.2.2, ?_⟩
  unfold scoreOne
  rw [if_pos h.1]

/-- Witness for C8: with the hard-coded window size 200, the very first score
is 0. -/
theorem claim_C8_preRotation_witness :
    scoreOne (learnSeq (hstInit codeParams) []) 0 = 0 :=
  (claim_C8_preRotation codeParams [] 0 (by decide)).2

/-- Claim C9: two separately constructed models sharing seed, n_trees,
height and window_size produce identical score sequences on any identical
input sequence under score-then-learn — construction and scoring are pure
functions of the hyperparameters and inputs, with the split points drawn
once from the seeded generator. -/
theorem claim_C9_determinism :
    ∀ (p q : HSTParams) (xs : List ℚ),
      p.nTrees = q.nTrees → p.height = q.height → p.windowSize = q.windowSize →
      p.seed = q.seed →
      scoreSeq (hstInit p) xs = scoreSeq (hstInit q) xs := by
  intro p q xs h1 h2 h3 h4
  have hpq : p = q := by
    cases p
    cases q
    simp_all
  rw [hpq]

/-- Witness for C9, at the hard-coded hyperparameters. -/
theorem claim_C9_determinism_witness :
    scoreSeq (hstInit codeParams) [1, 2, 3] = scoreSeq (hstInit codeParams) [1, 2, 3] :=
  claim_C9_determinism codeParams codeParams [1, 2, 3] rfl rfl rfl rfl
